import Mathlib

/-!
# FileList: directory listing behind a JNI boundary

A shallow embedding of `src/filelist.cpp` (entry point `nativeFileList`, result `String[]`)
and `src/filelistbyte.cpp` (entry point `nativeFileListByte`, result `byte[][]`).

Conventions of the embedding.

* A C string (`const char*`, `std::string`) is the list of its octets before the terminating
  NUL; an octet is a natural number.  `char` and `jbyte` are both eight bits wide and the
  assignment `byteItem[j] = strItem.at(j)` keeps the bit pattern, so it is the identity on octets.
* Sizes and indices are natural numbers: an entry list reaches the encoders only from
  `readDirectory`, whose names are `d_name` fields of at most 255 bytes, far below the range of
  `int`, `jsize` and `size_t`.
* Everything outside the two source files is an input of the model.  Every outcome the source
  inspects is a field of `JNIEnv` (the Java runtime) or of the file system `fs` (the C library):
  `GetStringUTFChars`, `FindClass`, `NewGlobalRef`, `NewObjectArray`, `NewStringUTF`,
  `ExceptionCheck`, `opendir`, `readdir` with `errno`.  Calls whose outcome the source never
  inspects (`push_back`, `NewByteArray`, `SetByteArrayRegion`, `SetObjectArrayElement`,
  `DeleteLocalRef`, `closedir`, the logging sink) follow their documented behaviour.
* `ScopedUtfChars`, `ScopedReaddir` and `readDirectory` are textually identical in the two files
  and are embedded once.
-/

namespace FileList

/-- An octet of a file name. -/
abbrev Byte := Nat

/-- The bytes of a NUL-terminated C string or of a `std::string`. -/
abbrev CString := List Byte

/-- The type `DirEntries`, a `std::vector<std::string>`. -/
abbrev DirEntries := List CString

/-- A Java string held through a `jstring` reference. -/
abbrev JString := String

/-- A Java class held through a `jclass` reference. -/
abbrev JClass := String

/-- A Java array reference: `none` is `NULL`, the elements may be `null`. -/
abbrev jarray (α : Type) := Option (List (Option α))

/-- How a native call ends: the process is aborted, or the call returns a value. -/
inductive Completion (α : Type) where
  | aborted : Completion α
  | returned (value : α) : Completion α
  deriving DecidableEq, Repr

/-- The three outcomes of `env->NewStringUTF(bytes)` that `toStringArray` tells apart. -/
inductive NewStringUTFResult where
  | threw : NewStringUTFResult
  | null : NewStringUTFResult
  | ok (s : JString) : NewStringUTFResult
  deriving DecidableEq, Repr

/-- The Java runtime as seen by one native call.  Calls made inside the encoding loop are
indexed by the loop counter at which they are made. -/
structure JNIEnv where
  GetStringUTFChars : JString → Option CString
  FindClass : String → Option JClass
  NewGlobalRef : Option JClass → Option JClass
  NewObjectArray : Nat → Option JClass → Bool
  NewStringUTF : Nat → CString → NewStringUTFResult
  ExceptionCheck : Nat → Bool

/-- A JNI call made by `toStringArray`, tagged with the loop counter. -/
inductive JniCall where
  | NewStringUTF (i : Nat) : JniCall
  | SetObjectArrayElement (i : Nat) : JniCall
  | ExceptionCheck (i : Nat) : JniCall
  deriving DecidableEq, Repr

/-! ## The C library: directory streams -/

/-- What a directory holds when it is opened: the `d_name` of the entries `readdir` returns, in
order, and the `errno` of the `readdir` call that follows them (`0`: end of directory). -/
structure DirStream where
  names : List CString
  errnoAtEnd : Nat
  deriving DecidableEq, Repr

/-- An open directory stream `DIR*`: its handle and what is still to be read. -/
structure DIR where
  id : Nat
  stream : DirStream
  deriving DecidableEq, Repr

/-- A call into the C library. -/
inductive Syscall where
  | opendir (path : CString) : Syscall
  | readdir (dir : Nat) : Syscall
  | closedir (dir : Nat) : Syscall
  deriving DecidableEq, Repr

/-- The state of the C library: the handles of the open directory streams, the next free
handle, `errno`, and the calls made so far (oldest first). -/
structure Sys where
  openDirs : List Nat
  nextDir : Nat
  errno : Nat
  calls : List Syscall
  deriving DecidableEq, Repr

/-- The file system: what `opendir` finds at a path, `none` when it fails. -/
abbrev FileSystem := CString → Option DirStream

/-- The call `opendir(path)`.  The `errno` of a failed call is never read by the program. -/
def opendir (fs : FileSystem) (sys : Sys) (path : CString) : Option DIR × Sys :=
  match fs path with
  | none => (none, ⟨sys.openDirs, sys.nextDir, sys.errno, sys.calls ++ [Syscall.opendir path]⟩)
  | some st =>
    (some ⟨sys.nextDir, st⟩,
      ⟨sys.nextDir :: sys.openDirs, sys.nextDir + 1, sys.errno,
        sys.calls ++ [Syscall.opendir path]⟩)

/-- The call `readdir(d)`: the next `d_name`, or `NULL`; `errno` changes only on an error. -/
def readdir (sys : Sys) (d : DIR) : Option CString × DIR × Sys :=
  match d.stream.names with
  | name :: rest =>
    (some name, ⟨d.id, ⟨rest, d.stream.errnoAtEnd⟩⟩,
      ⟨sys.openDirs, sys.nextDir, sys.errno, sys.calls ++ [Syscall.readdir d.id]⟩)
  | [] =>
    (none, d,
      ⟨sys.openDirs, sys.nextDir,
        if d.stream.errnoAtEnd ≠ 0 then d.stream.errnoAtEnd else sys.errno,
        sys.calls ++ [Syscall.readdir d.id]⟩)

/-- The call `closedir(d)`. -/
def closedir (sys : Sys) (d : DIR) : Sys :=
  ⟨sys.openDirs.erase d.id, sys.nextDir, sys.errno, sys.calls ++ [Syscall.closedir d.id]⟩

/-- The call `strcmp(a, b)`, of which only the sign is specified. -/
def strcmp : CString → CString → Int
  | [], [] => 0
  | [], _ :: _ => -1
  | _ :: _, [] => 1
  | a :: as, b :: bs => if a < b then -1 else if b < a then 1 else strcmp as bs

/-- The string literal `"."`. -/
def dot : CString := [46]

/-- The string literal `".."`. -/
def dotdot : CString := [46, 46]

/-! ## `ScopedUtfChars` and `ScopedReaddir` -/

/-- The class `ScopedUtfChars`: the field `utf_chars_`. -/
structure ScopedUtfChars where
  utf_chars_ : Option CString
  deriving DecidableEq, Repr

/-- The constructor `ScopedUtfChars(env, s)`. -/
def ScopedUtfChars.new (env : JNIEnv) (s : Option JString) : ScopedUtfChars :=
  match s with
  | none => ⟨none⟩
  | some js => ⟨env.GetStringUTFChars js⟩

/-- The method `ScopedUtfChars::c_str`. -/
def ScopedUtfChars.c_str (p : ScopedUtfChars) : Option CString := p.utf_chars_

/-- The class `ScopedReaddir`: the fields `mDirStream` and `mIsBad`. -/
structure ScopedReaddir where
  mDirStream : Option DIR
  mIsBad : Bool
  deriving DecidableEq, Repr

/-- The constructor `ScopedReaddir(path)`. -/
def ScopedReaddir.new (fs : FileSystem) (sys : Sys) (path : CString) : ScopedReaddir × Sys :=
  let r := opendir fs sys path
  (⟨r.1, r.1.isNone⟩, r.2)

/-- The destructor `~ScopedReaddir()`. -/
def ScopedReaddir.delete (dir : ScopedReaddir) (sys : Sys) : Sys :=
  match dir.mDirStream with
  | some d => closedir sys d
  | none => sys

/-- The method `ScopedReaddir::next`.  The branch for a null stream that is not marked bad is
never reached (the constructor marks a null stream bad); there `readdir` fails with `EBADF`. -/
def ScopedReaddir.next (dir : ScopedReaddir) (sys : Sys) : Option CString × ScopedReaddir × Sys :=
  if dir.mIsBad then
    (none, dir, sys)
  else
    let sys0 : Sys := ⟨sys.openDirs, sys.nextDir, 0, sys.calls⟩
    match dir.mDirStream with
    | none => (none, ⟨none, true⟩, ⟨sys.openDirs, sys.nextDir, 9, sys.calls⟩)
    | some d =>
      let r := readdir sys0 d
      match r.1 with
      | some name => (some name, ⟨some r.2.1, dir.mIsBad⟩, r.2.2)
      | none =>
        if r.2.2.errno ≠ 0 then (none, ⟨some r.2.1, true⟩, r.2.2)
        else (none, ⟨some r.2.1, dir.mIsBad⟩, r.2.2)

/-- The method `ScopedReaddir::isBad`. -/
def ScopedReaddir.isBad (dir : ScopedReaddir) : Bool := dir.mIsBad

/-! ## `readDirectory` -/

/-- The result of `readDirectory`: the returned flag, the vector `entries` after the call, and
the state of the C library after the call. -/
structure ReadResult where
  ok : Bool
  entries : DirEntries
  sys : Sys
  deriving DecidableEq, Repr

/-- The loop `while ((filename = dir.next()) != NULL)` of `readDirectory`.  The first argument
bounds the number of calls of `next`; `readDirectory` passes one more than the number of
names still to be read, which the loop never exceeds. -/
def readLoop : Nat → ScopedReaddir → DirEntries → Sys → ScopedReaddir × DirEntries × Sys
  | 0, dir, entries, sys => (dir, entries, sys)
  | fuel + 1, dir, entries, sys =>
    let r := dir.next sys
    match r.1 with
    | none => (r.2.1, entries, r.2.2)
    | some filename =>
      if strcmp filename dot ≠ 0 ∧ strcmp filename dotdot ≠ 0 then
        readLoop fuel r.2.1 (entries ++ [filename]) r.2.2
      else
        readLoop fuel r.2.1 entries r.2.2

/-- The number of calls of `next` the loop of `readDirectory` needs. -/
def ScopedReaddir.pending (dir : ScopedReaddir) : Nat :=
  match dir.mDirStream with
  | some d => d.stream.names.length + 1
  | none => 1

/-- The function `readDirectory(env, javaPath, entries)`; the destructor of `dir` runs when the
function returns, after the return value is computed. -/
def readDirectory (env : JNIEnv) (fs : FileSystem) (sys : Sys) (javaPath : Option JString)
    (entries : DirEntries) : ReadResult :=
  let path := ScopedUtfChars.new env javaPath
  match path.c_str with
  | none => ⟨false, entries, sys⟩
  | some p =>
    let c := ScopedReaddir.new fs sys p
    let l := readLoop c.1.pending c.1 entries c.2
    ⟨!l.1.isBad, l.2.1, l.1.delete l.2.2⟩

/-! ## The string encoder of `filelist.cpp` -/

/-- The function `findClass(env, name)`: it aborts the process when the global reference to
the class is `NULL`. -/
def findClass (env : JNIEnv) (name : String) : Completion JClass :=
  let localClass := env.FindClass name
  match env.NewGlobalRef localClass with
  | none => Completion.aborted
  | some result => Completion.returned result

/-- The call operator of `VectorCounter`: `strings.size()`. -/
def VectorCounter (strings : DirEntries) : Nat := strings.length

/-- The call operator of `VectorGetter`: `strings[i].c_str()`. -/
def VectorGetter (strings : DirEntries) (i : Nat) : CString := strings.getD i []

/-- The JNI call `SetObjectArrayElement(array, i, value)`: an index outside the array raises a
Java exception and stores nothing. -/
def SetObjectArrayElement {α : Type} (array : List (Option α)) (i : Nat) (value : Option α) :
    List (Option α) :=
  array.set i value

/-- What `toStringArray` does: how it ends, and the JNI calls of its loop, oldest first. -/
structure StringArrayResult where
  ret : Completion (jarray JString)
  jni : List JniCall
  deriving DecidableEq, Repr

/-- The loop `for (size_t i = 0; i < count; ++i)` of `toStringArray`.  The first numeric
argument is the number `count - i` of iterations still to run, so the loop counter is
`i = count - (k + 1)` in the iteration that leaves `k` more. -/
def toStringArrayLoop (env : JNIEnv) (strings : DirEntries) (count : Nat) :
    Nat → List (Option JString) → List JniCall → StringArrayResult
  | 0, result, jni => ⟨Completion.returned (some result), jni⟩
  | k + 1, result, jni =>
    let i := count - (k + 1)
    match env.NewStringUTF i (VectorGetter strings i) with
    | NewStringUTFResult.threw =>
      toStringArrayLoop env strings count k result (jni ++ [JniCall.NewStringUTF i])
    | NewStringUTFResult.null =>
      toStringArrayLoop env strings count k result (jni ++ [JniCall.NewStringUTF i])
    | NewStringUTFResult.ok str =>
      let result1 := SetObjectArrayElement result i (some str)
      let jni1 := jni ++ [JniCall.NewStringUTF i, JniCall.SetObjectArrayElement i,
        JniCall.ExceptionCheck i]
      if env.ExceptionCheck i then ⟨Completion.returned none, jni1⟩
      else toStringArrayLoop env strings count k result1 jni1

/-- The function `toStringArray(env, strings)` with its template instance for `VectorCounter`
and `VectorGetter`. -/
def toStringArray (env : JNIEnv) (strings : DirEntries) : StringArrayResult :=
  let count := VectorCounter strings
  match findClass env "java/lang/String" with
  | Completion.aborted => ⟨Completion.aborted, []⟩
  | Completion.returned cls =>
    if env.NewObjectArray count (some cls) then
      toStringArrayLoop env strings count count (List.replicate count none) []
    else
      ⟨Completion.returned none, []⟩

/-! ## The byte-array encoder of `filelistbyte.cpp` -/

/-- The JNI call `NewByteArray(length)`: a fresh array of zeros. -/
def NewByteArray (length : Nat) : List Byte := List.replicate length 0

/-- The JNI call `SetByteArrayRegion(array, start, len, buf)`: a region outside the array
raises a Java exception and copies nothing. -/
def SetByteArrayRegion (array : List Byte) (start len : Nat) (buf : List Byte) : List Byte :=
  if start + len ≤ array.length then array.take start ++ buf.take len ++ array.drop (start + len)
  else array

/-- The loop `for (int j = 0; j < length; j++) byteItem[j] = strItem.at(j);`; the numeric
argument is the number `length - j` of iterations still to run. -/
def copyLoop (strItem : CString) (length : Nat) : Nat → List Byte → List Byte
  | 0, byteItem => byteItem
  | m + 1, byteItem =>
    let j := length - (m + 1)
    copyLoop strItem length m (byteItem.set j (strItem.getD j 0))

/-- The loop `for (size_t i = 0; i < count; ++i)` of `toStringArraybyte`; the numeric argument
is the number `count - i` of iterations still to run. -/
def toStringArraybyteLoop (strings : DirEntries) (count : Nat) :
    Nat → List (Option (List Byte)) → List (Option (List Byte))
  | 0, result => result
  | k + 1, result =>
    let i := count - (k + 1)
    let strItem := strings.getD i []
    let length := strItem.length
    let byteItem := copyLoop strItem length length (List.replicate length 0)
    let byteArray := SetByteArrayRegion (NewByteArray length) 0 length byteItem
    toStringArraybyteLoop strings count k (SetObjectArrayElement result i (some byteArray))

/-- The function `toStringArraybyte(env, strings)`. -/
def toStringArraybyte (env : JNIEnv) (strings : DirEntries) : jarray (List Byte) :=
  let count := strings.length
  let byteArrCls := env.FindClass "[B"
  if env.NewObjectArray count byteArrCls then
    some (toStringArraybyteLoop strings count count (List.replicate count none))
  else
    none

/-! ## The two entry points -/

namespace filelist

/-- What `nativeFileList` does: how it ends, the C library afterwards, the JNI calls of the
encoding loop. -/
structure FileListResult where
  ret : Completion (jarray JString)
  sys : Sys
  jni : List JniCall
  deriving DecidableEq, Repr

/-- The function `fileList` of `filelist.cpp`. -/
def fileList (env : JNIEnv) (fs : FileSystem) (sys : Sys) (javaPath : Option JString) :
    FileListResult :=
  let entries : DirEntries := []
  let r := readDirectory env fs sys javaPath entries
  if !r.ok then ⟨Completion.returned none, r.sys, []⟩
  else
    let t := toStringArray env r.entries
    ⟨t.ret, r.sys, t.jni⟩

end filelist

namespace filelistbyte

/-- What `nativeFileListByte` does: the returned array and the C library afterwards. -/
structure FileListResult where
  ret : jarray (List Byte)
  sys : Sys
  deriving DecidableEq, Repr

/-- The function `fileList` of `filelistbyte.cpp`. -/
def fileList (env : JNIEnv) (fs : FileSystem) (sys : Sys) (javaPath : Option JString) :
    FileListResult :=
  let entries : DirEntries := []
  let r := readDirectory env fs sys javaPath entries
  if !r.ok then ⟨none, r.sys⟩
  else ⟨toStringArraybyte env r.entries, r.sys⟩

end filelistbyte

/-! ## Sample inputs -/

/-- A runtime in which every call succeeds and a name converts to the text of its ASCII
characters. -/
def sampleEnv : JNIEnv where
  GetStringUTFChars := fun s => some (s.toList.map Char.toNat)
  FindClass := fun name => some name
  NewGlobalRef := fun c => c
  NewObjectArray := fun _ _ => true
  NewStringUTF := fun _ utf =>
    if utf.all (fun b => decide (b < 128)) then
      NewStringUTFResult.ok (String.mk (utf.map Char.ofNat))
    else NewStringUTFResult.null
  ExceptionCheck := fun _ => false

/-- A file system with a directory `/d` holding `.`, `..`, `a`, a name with the byte `0xFF`,
`...` and `.b`; a directory `/e` whose third `readdir` fails with `EIO`; a directory `/o` holding
only `.` and `..`; and a directory `/v` holding `.`, `a`, `..` and `b`. -/
def sampleFs : FileSystem := fun path =>
  if path = [47, 100] then some ⟨[[46], [46, 46], [97], [255], [46, 46, 46], [46, 98]], 0⟩
  else if path = [47, 101] then some ⟨[[46], [97]], 5⟩
  else if path = [47, 111] then some ⟨[[46], [46, 46]], 0⟩
  else if path = [47, 118] then some ⟨[[46], [97], [46, 46], [98]], 0⟩
  else none

/-- A C library with no open directory stream. -/
def sampleSys : Sys := ⟨[], 3, 0, []⟩

/-- The runtime `sampleEnv`, except that `ExceptionCheck` reports an exception at loop
counter 1. -/
def raisingEnv : JNIEnv where
  GetStringUTFChars := sampleEnv.GetStringUTFChars
  FindClass := sampleEnv.FindClass
  NewGlobalRef := sampleEnv.NewGlobalRef
  NewObjectArray := sampleEnv.NewObjectArray
  NewStringUTF := sampleEnv.NewStringUTF
  ExceptionCheck := fun i => decide (i = 1)

/-- Three entries of which the middle one, the single byte `0xFF`, is not valid text. -/
def sampleEntries : DirEntries := [[97], [255], [98]]

/-! ## Specification-side vocabulary -/

/-- The names of a directory other than `.` and `..`, in order. -/
def realEntries (names : List CString) : List CString :=
  names.filter (fun n => decide (n ≠ dot ∧ n ≠ dotdot))

/-- The text that `NewStringUTF` yields for entry `i`, `none` when the call throws or returns
`NULL`. -/
def converted (env : JNIEnv) (strings : DirEntries) (i : Nat) : Option JString :=
  match env.NewStringUTF i (VectorGetter strings i) with
  | NewStringUTFResult.ok s => some s
  | NewStringUTFResult.threw => none
  | NewStringUTFResult.null => none

/-- The loop counter at which a JNI call is made. -/
def JniCall.index : JniCall → Nat
  | JniCall.NewStringUTF i => i
  | JniCall.SetObjectArrayElement i => i
  | JniCall.ExceptionCheck i => i

/-- Whether `toStringArray` obtains its destination array of `count` elements: the class
`java/lang/String` is found and `NewObjectArray` does not return `NULL`. -/
def stringArrayAllocated (env : JNIEnv) (count : Nat) : Bool :=
  match findClass env "java/lang/String" with
  | Completion.returned cls => env.NewObjectArray count (some cls)
  | Completion.aborted => false

/-- Whether `toStringArraybyte` obtains its destination array of `count` elements. -/
def byteArrayAllocated (env : JNIEnv) (count : Nat) : Bool :=
  env.NewObjectArray count (env.FindClass "[B")

/-- The number of `opendir` calls in a log. -/
def opendirCalls (calls : List Syscall) : Nat :=
  calls.countP (fun c => match c with
    | Syscall.opendir _ => true
    | _ => false)

/-- The number of `closedir` calls in a log. -/
def closedirCalls (calls : List Syscall) : Nat :=
  calls.countP (fun c => match c with
    | Syscall.closedir _ => true
    | _ => false)

/-! ## Lemmas on the directory reader -/

theorem strcmp_eq_zero_iff (a b : CString) : strcmp a b = 0 ↔ a = b := by
  induction a generalizing b with
  | nil => cases b <;> simp [strcmp]
  | cons x xs ih =>
    cases b with
    | nil => simp [strcmp]
    | cons y ys =>
      simp only [strcmp]
      by_cases h1 : x < y
      · have hne : x ≠ y := Nat.ne_of_lt h1
        simp [h1, hne]
      · by_cases h2 : y < x
        · have hne : x ≠ y := Nat.ne_of_gt h2
          simp [h1, h2, hne]
        · have hxy : x = y := Nat.le_antisymm (Nat.le_of_not_lt h2) (Nat.le_of_not_lt h1)
          simp [h1, ih, hxy]

theorem readLoop_open (id e : Nat) (names : List CString) :
    ∀ (fuel : Nat) (entries : DirEntries) (sys : Sys), names.length < fuel →
      readLoop fuel ⟨some ⟨id, ⟨names, e⟩⟩, false⟩ entries sys =
        (⟨some ⟨id, ⟨[], e⟩⟩, decide (e ≠ 0)⟩, entries ++ realEntries names,
          ⟨sys.openDirs, sys.nextDir, e,
            sys.calls ++ List.replicate (names.length + 1) (Syscall.readdir id)⟩) := by
  induction names with
  | nil =>
    intro fuel entries sys h
    cases fuel with
    | zero => simp at h
    | succ f =>
      by_cases he : e = 0
      · simp [readLoop, ScopedReaddir.next, readdir, he, realEntries]
      · simp [readLoop, ScopedReaddir.next, readdir, he, realEntries]
  | cons n rest ih =>
    intro fuel entries sys h
    cases fuel with
    | zero => simp at h
    | succ f =>
      have hf : rest.length < f := by simpa using h
      by_cases hk : n ≠ dot ∧ n ≠ dotdot
      · simp [readLoop, ScopedReaddir.next, readdir, strcmp_eq_zero_iff, hk, ih f _ _ hf,
          realEntries, List.replicate_succ]
      · simp [readLoop, ScopedReaddir.next, readdir, strcmp_eq_zero_iff, hk, ih f _ _ hf,
          realEntries, List.replicate_succ]

theorem readDirectory_null (env : JNIEnv) (fs : FileSystem) (sys : Sys)
    (javaPath : Option JString) (entries : DirEntries)
    (h : (ScopedUtfChars.new env javaPath).c_str = none) :
    readDirectory env fs sys javaPath entries = ⟨false, entries, sys⟩ := by
  simp [readDirectory, h]

theorem readDirectory_closed (env : JNIEnv) (fs : FileSystem) (sys : Sys)
    (javaPath : Option JString) (entries : DirEntries) (p : CString)
    (h : (ScopedUtfChars.new env javaPath).c_str = some p) (ho : fs p = none) :
    readDirectory env fs sys javaPath entries =
      ⟨false, entries,
        ⟨sys.openDirs, sys.nextDir, sys.errno, sys.calls ++ [Syscall.opendir p]⟩⟩ := by
  simp [readDirectory, h, ScopedReaddir.new, opendir, ho, ScopedReaddir.pending, readLoop,
    ScopedReaddir.next, ScopedReaddir.isBad, ScopedReaddir.delete]

theorem readDirectory_open (env : JNIEnv) (fs : FileSystem) (sys : Sys)
    (javaPath : Option JString) (entries : DirEntries) (p : CString) (names : List CString)
    (e : Nat) (h : (ScopedUtfChars.new env javaPath).c_str = some p)
    (ho : fs p = some ⟨names, e⟩) :
    readDirectory env fs sys javaPath entries =
      ⟨decide (e = 0), entries ++ realEntries names,
        ⟨sys.openDirs, sys.nextDir + 1, e,
          sys.calls ++ [Syscall.opendir p] ++
            List.replicate (names.length + 1) (Syscall.readdir sys.nextDir) ++
            [Syscall.closedir sys.nextDir]⟩⟩ := by
  simp only [readDirectory, h, ScopedReaddir.new, opendir, ho, ScopedReaddir.pending,
    Option.isNone_some]
  rw [readLoop_open _ _ _ _ _ _ (Nat.lt_succ_self _)]
  simp [ScopedReaddir.isBad, ScopedReaddir.delete, closedir]

/-! ## Lemmas on the byte-array encoder -/

theorem copyLoop_length (strItem : CString) (length : Nat) :
    ∀ (m : Nat) (byteItem : List Byte),
      (copyLoop strItem length m byteItem).length = byteItem.length := by
  intro m
  induction m with
  | zero => intro b; rfl
  | succ m ih => intro b; simp [copyLoop, ih]

theorem copyLoop_getElem? (strItem : CString) (length : Nat) (hs : length ≤ strItem.length) :
    ∀ (m : Nat) (byteItem : List Byte) (t : Nat), m ≤ length → length ≤ byteItem.length →
      (copyLoop strItem length m byteItem)[t]? =
        if length - m ≤ t ∧ t < length then strItem[t]? else byteItem[t]? := by
  intro m
  induction m with
  | zero =>
    intro b t _ _
    have : ¬ (length - 0 ≤ t ∧ t < length) := by omega
    simp only [copyLoop, this, if_false]
  | succ m ih =>
    intro b t hm hb
    have hj : length - (m + 1) < strItem.length := by omega
    simp only [copyLoop]
    rw [ih _ t (by omega) (by simpa using hb), List.getElem?_set,
      List.getD_eq_getElem _ _ hj]
    by_cases h1 : length - m ≤ t ∧ t < length
    · have h2 : length - (m + 1) ≤ t ∧ t < length := by omega
      rw [if_pos h1, if_pos h2]
    · by_cases h3 : length - (m + 1) = t
      · have h2 : length - (m + 1) ≤ t ∧ t < length := by omega
        have h4 : length - (m + 1) < b.length := by omega
        rw [if_neg h1, if_pos h2, if_pos h3, if_pos h4]
        subst h3
        exact (List.getElem?_eq_getElem hj).symm
      · have h2 : ¬ (length - (m + 1) ≤ t ∧ t < length) := by omega
        rw [if_neg h1, if_neg h2, if_neg h3]

theorem copyLoop_all (strItem : CString) :
    copyLoop strItem strItem.length strItem.length (List.replicate strItem.length 0) =
      strItem := by
  apply List.ext_getElem?
  intro t
  rw [copyLoop_getElem? strItem strItem.length (Nat.le_refl _) _ _ t (Nat.le_refl _)
    (by simp)]
  by_cases h : t < strItem.length
  · simp [h]
  · have h1 : ¬ (strItem.length - strItem.length ≤ t ∧ t < strItem.length) := by omega
    have h2 : strItem.length ≤ t := by omega
    rw [if_neg h1, List.getElem?_replicate, if_neg h]
    exact (List.getElem?_eq_none h2).symm

theorem setByteArrayRegion_new (buf : List Byte) :
    SetByteArrayRegion (NewByteArray buf.length) 0 buf.length buf = buf := by
  simp [SetByteArrayRegion, NewByteArray]

theorem toStringArraybyteLoop_length (strings : DirEntries) (count : Nat) :
    ∀ (k : Nat) (result : List (Option (List Byte))),
      (toStringArraybyteLoop strings count k result).length = result.length := by
  intro k
  induction k with
  | zero => intro r; rfl
  | succ k ih => intro r; simp [toStringArraybyteLoop, ih, SetObjectArrayElement]

theorem toStringArraybyteLoop_getElem? (strings : DirEntries) (count : Nat)
    (hc : count ≤ strings.length) :
    ∀ (k : Nat) (result : List (Option (List Byte))) (t : Nat), k ≤ count →
      count ≤ result.length →
      (toStringArraybyteLoop strings count k result)[t]? =
        if count - k ≤ t ∧ t < count then Option.map some strings[t]? else result[t]? := by
  intro k
  induction k with
  | zero =>
    intro r t _ _
    have : ¬ (count - 0 ≤ t ∧ t < count) := by omega
    simp only [toStringArraybyteLoop, this, if_false]
  | succ k ih =>
    intro r t hk hr
    have hi : count - (k + 1) < strings.length := by omega
    simp only [toStringArraybyteLoop, SetObjectArrayElement]
    rw [ih _ t (by omega) (by simpa using hr), List.getElem?_set,
      List.getD_eq_getElem _ _ hi, copyLoop_all, setByteArrayRegion_new]
    by_cases h1 : count - k ≤ t ∧ t < count
    · have h2 : count - (k + 1) ≤ t ∧ t < count := by omega
      rw [if_pos h1, if_pos h2]
    · by_cases h3 : count - (k + 1) = t
      · have h2 : count - (k + 1) ≤ t ∧ t < count := by omega
        have h4 : count - (k + 1) < r.length := by omega
        rw [if_neg h1, if_pos h2, if_pos h3, if_pos h4]
        subst h3
        rw [List.getElem?_eq_getElem hi]
        rfl
      · have h2 : ¬ (count - (k + 1) ≤ t ∧ t < count) := by omega
        rw [if_neg h1, if_neg h2, if_neg h3]

theorem toStringArraybyteLoop_all (strings : DirEntries) :
    toStringArraybyteLoop strings strings.length strings.length
      (List.replicate strings.length none) = strings.map some := by
  apply List.ext_getElem?
  intro t
  rw [toStringArraybyteLoop_getElem? strings strings.length (Nat.le_refl _) _ _ t
    (Nat.le_refl _) (by simp)]
  by_cases h : t < strings.length
  · simp [h]
  · have h1 : ¬ (strings.length - strings.length ≤ t ∧ t < strings.length) := by omega
    have h2 : strings.length ≤ t := by omega
    rw [if_neg h1, List.getElem?_replicate, if_neg h, List.getElem?_map,
      List.getElem?_eq_none h2]
    rfl

theorem toStringArraybyte_eq (env : JNIEnv) (strings : DirEntries) :
    toStringArraybyte env strings =
      if byteArrayAllocated env strings.length then some (strings.map some) else none := by
  simp [toStringArraybyte, byteArrayAllocated, toStringArraybyteLoop_all]

/-! ## Lemmas on the string encoder -/

theorem toStringArrayLoop_returns (env : JNIEnv) (strings : DirEntries) (count : Nat) :
    ∀ (k : Nat) (result : List (Option JString)) (jni : List JniCall), k ≤ count →
      count ≤ result.length →
      (∀ i, count - k ≤ i → i < count → converted env strings i ≠ none →
        env.ExceptionCheck i = false) →
      ∃ arr, (toStringArrayLoop env strings count k result jni).ret =
          Completion.returned (some arr) ∧ arr.length = result.length ∧
        ∀ t, arr[t]? =
          if count - k ≤ t ∧ t < count ∧ converted env strings t ≠ none then
            some (converted env strings t)
          else result[t]? := by
  intro k
  induction k with
  | zero =>
    intro r jni _ _ _
    refine ⟨r, rfl, rfl, ?_⟩
    intro t
    have : ¬ (count - 0 ≤ t ∧ t < count ∧ converted env strings t ≠ none) := by omega
    rw [if_neg this]
  | succ k ih =>
    intro r jni hk hr hx
    have hx1 : ∀ i, count - k ≤ i → i < count → converted env strings i ≠ none →
        env.ExceptionCheck i = false := fun i h1 h2 h3 => hx i (by omega) h2 h3
    rcases hc : env.NewStringUTF (count - (k + 1)) (VectorGetter strings (count - (k + 1)))
      with _ | _ | s
    · have hv : converted env strings (count - (k + 1)) = none := by simp [converted, hc]
      obtain ⟨arr, h1, h2, h3⟩ := ih r (jni ++ [JniCall.NewStringUTF (count - (k + 1))])
        (by omega) hr hx1
      refine ⟨arr, by simp only [toStringArrayLoop, hc]; exact h1, h2, ?_⟩
      intro t
      rw [h3 t]
      by_cases h4 : count - k ≤ t ∧ t < count ∧ converted env strings t ≠ none
      · rw [if_pos h4, if_pos ⟨by omega, h4.2⟩]
      · have h5 : ¬ (count - (k + 1) ≤ t ∧ t < count ∧ converted env strings t ≠ none) := by
          intro h
          by_cases h6 : t = count - (k + 1)
          · rw [h6] at h; exact h.2.2 hv
          · exact h4 ⟨by omega, h.2⟩
        rw [if_neg h4, if_neg h5]
    · have hv : converted env strings (count - (k + 1)) = none := by simp [converted, hc]
      obtain ⟨arr, h1, h2, h3⟩ := ih r (jni ++ [JniCall.NewStringUTF (count - (k + 1))])
        (by omega) hr hx1
      refine ⟨arr, by simp only [toStringArrayLoop, hc]; exact h1, h2, ?_⟩
      intro t
      rw [h3 t]
      by_cases h4 : count - k ≤ t ∧ t < count ∧ converted env strings t ≠ none
      · rw [if_pos h4, if_pos ⟨by omega, h4.2⟩]
      · have h5 : ¬ (count - (k + 1) ≤ t ∧ t < count ∧ converted env strings t ≠ none) := by
          intro h
          by_cases h6 : t = count - (k + 1)
          · rw [h6] at h; exact h.2.2 hv
          · exact h4 ⟨by omega, h.2⟩
        rw [if_neg h4, if_neg h5]
    · have hv : converted env strings (count - (k + 1)) = some s := by simp [converted, hc]
      have he : env.ExceptionCheck (count - (k + 1)) = false :=
        hx _ (Nat.le_refl _) (by omega) (by rw [hv]; simp)
      obtain ⟨arr, h1, h2, h3⟩ := ih (SetObjectArrayElement r (count - (k + 1)) (some s))
        (jni ++ [JniCall.NewStringUTF (count - (k + 1)),
          JniCall.SetObjectArrayElement (count - (k + 1)),
          JniCall.ExceptionCheck (count - (k + 1))])
        (by omega) (by simpa [SetObjectArrayElement] using hr) hx1
      refine ⟨arr, by simp only [toStringArrayLoop, hc, he]; exact h1,
        by simpa [SetObjectArrayElement] using h2, ?_⟩
      intro t
      rw [h3 t]
      by_cases h4 : count - k ≤ t ∧ t < count ∧ converted env strings t ≠ none
      · rw [if_pos h4, if_pos ⟨by omega, h4.2⟩]
      · rw [if_neg h4]
        simp only [SetObjectArrayElement, List.getElem?_set]
        by_cases h6 : count - (k + 1) = t
        · have h7 : count - (k + 1) < r.length := by omega
          have h8 : count - (k + 1) ≤ t ∧ t < count ∧ converted env strings t ≠ none := by
            subst h6
            exact ⟨Nat.le_refl _, by omega, by rw [hv]; simp⟩
          rw [if_pos h6, if_pos h7, if_pos h8, ← h6, hv]
        · have h5 : ¬ (count - (k + 1) ≤ t ∧ t < count ∧ converted env strings t ≠ none) :=
            fun h => h4 ⟨by omega, h.2⟩
          rw [if_neg h6, if_neg h5]

theorem toStringArrayLoop_raises (env : JNIEnv) (strings : DirEntries) (count i : Nat)
    (hi : i < count) (hv : converted env strings i ≠ none)
    (he : env.ExceptionCheck i = true) :
    ∀ (k : Nat) (result : List (Option JString)) (jni : List JniCall), k ≤ count →
      count - k ≤ i →
      (toStringArrayLoop env strings count k result jni).ret = Completion.returned none ∧
        ∀ c ∈ (toStringArrayLoop env strings count k result jni).jni,
          c ∈ jni ∨ c.index ≤ i := by
  intro k
  induction k with
  | zero => intro r jni _ h; omega
  | succ k ih =>
    intro r jni hk hlo
    by_cases h0 : count - (k + 1) = i
    · rcases hc : env.NewStringUTF (count - (k + 1)) (VectorGetter strings (count - (k + 1)))
        with _ | _ | s
      · exact absurd (by simp [converted, ← h0, hc]) hv
      · exact absurd (by simp [converted, ← h0, hc]) hv
      · have he1 : env.ExceptionCheck (count - (k + 1)) = true := by rw [h0]; exact he
        simp only [toStringArrayLoop, hc, he1, if_true]
        refine ⟨trivial, ?_⟩
        intro c hcm
        rcases List.mem_append.mp hcm with h | h
        · exact Or.inl h
        · right
          simp only [List.mem_cons, List.mem_singleton, List.not_mem_nil, or_false] at h
          rcases h with h | h | h <;> (rw [h]; simp [JniCall.index, h0])
    · have hlo1 : count - k ≤ i := by omega
      have hidx : count - (k + 1) ≤ i := by omega
      have key : ∀ (r1 : List (Option JString)) (extra : List JniCall),
          (∀ c ∈ extra, c.index = count - (k + 1)) →
          (toStringArrayLoop env strings count k r1 (jni ++ extra)).ret =
              Completion.returned none ∧
            ∀ c ∈ (toStringArrayLoop env strings count k r1 (jni ++ extra)).jni,
              c ∈ jni ∨ c.index ≤ i := by
        intro r1 extra hex
        obtain ⟨h1, h2⟩ := ih r1 (jni ++ extra) (by omega) hlo1
        refine ⟨h1, ?_⟩
        intro c hcm
        rcases h2 c hcm with h | h
        · rcases List.mem_append.mp h with h | h
          · exact Or.inl h
          · right; rw [hex c h]; exact hidx
        · exact Or.inr h
      rcases hc : env.NewStringUTF (count - (k + 1)) (VectorGetter strings (count - (k + 1)))
        with _ | _ | s
      · simp only [toStringArrayLoop, hc]
        exact key r _ (by intro c h; simp at h; rw [h]; rfl)
      · simp only [toStringArrayLoop, hc]
        exact key r _ (by intro c h; simp at h; rw [h]; rfl)
      · simp only [toStringArrayLoop, hc]
        by_cases he1 : env.ExceptionCheck (count - (k + 1)) = true
        · rw [if_pos he1]
          refine ⟨rfl, ?_⟩
          intro c hcm
          rcases List.mem_append.mp hcm with h | h
          · exact Or.inl h
          · right
            simp only [List.mem_cons, List.mem_singleton, List.not_mem_nil, or_false] at h
            rcases h with h | h | h <;> (rw [h]; simpa [JniCall.index] using hidx)
        · rw [if_neg he1]
          exact key _ _ (by
            intro c h
            simp only [List.mem_cons, List.mem_singleton, List.not_mem_nil, or_false] at h
            rcases h with h | h | h <;> (rw [h]; rfl))

theorem toStringArrayLoop_calls (env : JNIEnv) (strings : DirEntries) (count : Nat) :
    ∀ (k : Nat) (result : List (Option JString)) (jni : List JniCall), k ≤ count →
      ∀ c ∈ (toStringArrayLoop env strings count k result jni).jni,
        c ∈ jni ∨ (count - k ≤ c.index ∧ c.index < count ∧
          (c = JniCall.SetObjectArrayElement c.index → converted env strings c.index ≠ none)) := by
  intro k
  induction k with
  | zero => intro r jni _ c h; exact Or.inl h
  | succ k ih =>
    intro r jni hk c hcm
    have key : ∀ (r1 : List (Option JString)) (extra : List JniCall),
        (∀ d ∈ extra, d.index = count - (k + 1) ∧
          (d = JniCall.SetObjectArrayElement d.index →
            converted env strings d.index ≠ none)) →
        c ∈ (toStringArrayLoop env strings count k r1 (jni ++ extra)).jni →
        c ∈ jni ∨ (count - (k + 1) ≤ c.index ∧ c.index < count ∧
          (c = JniCall.SetObjectArrayElement c.index →
            converted env strings c.index ≠ none)) := by
      intro r1 extra hex hm
      rcases ih r1 (jni ++ extra) (by omega) c hm with h | h
      · rcases List.mem_append.mp h with h | h
        · exact Or.inl h
        · right
          obtain ⟨h1, h2⟩ := hex c h
          exact ⟨by omega, by omega, h2⟩
      · exact Or.inr ⟨by omega, h.2.1, h.2.2⟩
    rcases hc : env.NewStringUTF (count - (k + 1)) (VectorGetter strings (count - (k + 1)))
      with _ | _ | s
    · simp only [toStringArrayLoop, hc] at hcm
      exact key r _ (by intro d h; simp at h; rw [h]; exact ⟨rfl, by simp [JniCall.index]⟩) hcm
    · simp only [toStringArrayLoop, hc] at hcm
      exact key r _ (by intro d h; simp at h; rw [h]; exact ⟨rfl, by simp [JniCall.index]⟩) hcm
    · have hv : converted env strings (count - (k + 1)) ≠ none := by simp [converted, hc]
      have hex : ∀ d ∈ [JniCall.NewStringUTF (count - (k + 1)),
          JniCall.SetObjectArrayElement (count - (k + 1)),
          JniCall.ExceptionCheck (count - (k + 1))],
          d.index = count - (k + 1) ∧ (d = JniCall.SetObjectArrayElement d.index →
            converted env strings d.index ≠ none) := by
        intro d h
        simp only [List.mem_cons, List.mem_singleton, List.not_mem_nil, or_false] at h
        rcases h with h | h | h <;> (rw [h]; exact ⟨rfl, fun _ => hv⟩)
      simp only [toStringArrayLoop, hc] at hcm
      by_cases he1 : env.ExceptionCheck (count - (k + 1)) = true
      · rw [if_pos he1] at hcm
        rcases List.mem_append.mp hcm with h | h
        · exact Or.inl h
        · right
          obtain ⟨h1, h2⟩ := hex c h
          exact ⟨by omega, by omega, h2⟩
      · rw [if_neg he1] at hcm
        exact key _ _ hex hcm

theorem toStringArray_allocated (env : JNIEnv) (strings : DirEntries)
    (h : stringArrayAllocated env strings.length = true) :
    toStringArray env strings =
      toStringArrayLoop env strings strings.length strings.length
        (List.replicate strings.length none) [] := by
  unfold stringArrayAllocated at h
  unfold toStringArray
  simp only [VectorCounter]
  cases hf : findClass env "java/lang/String" with
  | aborted => rw [hf] at h; simp at h
  | returned cls => rw [hf] at h; simp only at h; simp [h]

theorem toStringArray_not_allocated (env : JNIEnv) (strings : DirEntries)
    (h : stringArrayAllocated env strings.length = false) :
    (toStringArray env strings).jni = [] ∧
      ((toStringArray env strings).ret = Completion.aborted ∨
        (toStringArray env strings).ret = Completion.returned none) := by
  unfold stringArrayAllocated at h
  unfold toStringArray
  simp only [VectorCounter]
  cases hf : findClass env "java/lang/String" with
  | aborted => simp
  | returned cls => rw [hf] at h; simp only at h; simp [h]

theorem vectorGetter_eq (strings : DirEntries) (i : Nat) (h : i < strings.length) :
    VectorGetter strings i = strings[i] := by
  unfold VectorGetter
  exact List.getD_eq_getElem _ _ h

theorem converted_eq_some (env : JNIEnv) (strings : DirEntries) (i : Nat) (s : JString) :
    converted env strings i = some s ↔
      env.NewStringUTF i (VectorGetter strings i) = NewStringUTFResult.ok s := by
  unfold converted
  cases env.NewStringUTF i (VectorGetter strings i) <;> simp

theorem converted_eq_none (env : JNIEnv) (strings : DirEntries) (i : Nat) :
    converted env strings i = none ↔
      (env.NewStringUTF i (VectorGetter strings i) = NewStringUTFResult.threw ∨
        env.NewStringUTF i (VectorGetter strings i) = NewStringUTFResult.null) := by
  unfold converted
  cases env.NewStringUTF i (VectorGetter strings i) <;> simp

theorem toStringArray_succeeds (env : JNIEnv) (strings : DirEntries)
    (ha : stringArrayAllocated env strings.length = true)
    (hx : ∀ i, i < strings.length → converted env strings i ≠ none →
      env.ExceptionCheck i = false) :
    ∃ arr, (toStringArray env strings).ret = Completion.returned (some arr) ∧
      arr.length = strings.length ∧
      ∀ t, t < strings.length → arr[t]? = some (converted env strings t) := by
  rw [toStringArray_allocated env strings ha]
  obtain ⟨arr, h1, h2, h3⟩ := toStringArrayLoop_returns env strings strings.length
    strings.length (List.replicate strings.length none) [] (Nat.le_refl _) (by simp)
    (fun i _ h => hx i h)
  refine ⟨arr, h1, by simpa using h2, ?_⟩
  intro t ht
  rw [h3 t]
  by_cases hc : converted env strings t = none
  · have : ¬ (strings.length - strings.length ≤ t ∧ t < strings.length ∧
        converted env strings t ≠ none) := fun h => h.2.2 hc
    rw [if_neg this, List.getElem?_replicate, if_pos ht, hc]
  · rw [if_pos ⟨by omega, ht, hc⟩]

theorem toStringArray_nonnull (env : JNIEnv) (strings : DirEntries)
    (arr : List (Option JString))
    (h : (toStringArray env strings).ret = Completion.returned (some arr)) :
    stringArrayAllocated env strings.length = true ∧
      (∀ i, i < strings.length → converted env strings i ≠ none →
        env.ExceptionCheck i = false) ∧
      arr.length = strings.length ∧
      ∀ t, t < strings.length → arr[t]? = some (converted env strings t) := by
  have ha : stringArrayAllocated env strings.length = true := by
    by_contra hn
    have hn1 : stringArrayAllocated env strings.length = false := by simpa using hn
    rcases (toStringArray_not_allocated env strings hn1).2 with h1 | h1
    · rw [h1] at h; cases h
    · rw [h1] at h; cases h
  have hx : ∀ i, i < strings.length → converted env strings i ≠ none →
      env.ExceptionCheck i = false := by
    intro i hi hv
    by_contra hn
    have hn1 : env.ExceptionCheck i = true := by simpa using hn
    have h1 := (toStringArrayLoop_raises env strings strings.length i hi hv hn1
      strings.length (List.replicate strings.length none) [] (Nat.le_refl _) (by omega)).1
    rw [toStringArray_allocated env strings ha, h1] at h
    cases h
  obtain ⟨arr1, h1, h2, h3⟩ := toStringArray_succeeds env strings ha hx
  rw [h1] at h
  have : arr1 = arr := by injection h with h; injection h
  subst this
  exact ⟨ha, hx, h2, h3⟩

theorem mem_realEntries (names : List CString) (n : CString) :
    n ∈ realEntries names ↔ n ∈ names ∧ n ≠ dot ∧ n ≠ dotdot := by
  simp [realEntries, List.mem_filter]

theorem realEntries_eq_nil (names : List CString) (h : ∀ n ∈ names, n = dot ∨ n = dotdot) :
    realEntries names = [] := by
  apply List.eq_nil_iff_forall_not_mem.mpr
  intro n hn
  obtain ⟨h1, h2, h3⟩ := (mem_realEntries names n).mp hn
  rcases h n h1 with h4 | h4
  · exact h2 h4
  · exact h3 h4

theorem fileList_string_open (env : JNIEnv) (fs : FileSystem) (sys : Sys) (js : JString)
    (p : CString) (names : List CString) (e : Nat)
    (hp : env.GetStringUTFChars js = some p) (ho : fs p = some ⟨names, e⟩) :
    filelist.fileList env fs sys (some js) =
      if e = 0 then
        ⟨(toStringArray env (realEntries names)).ret,
          (readDirectory env fs sys (some js) []).sys,
          (toStringArray env (realEntries names)).jni⟩
      else
        ⟨Completion.returned none, (readDirectory env fs sys (some js) []).sys, []⟩ := by
  have hr := readDirectory_open env fs sys (some js) [] p names e hp ho
  unfold filelist.fileList
  by_cases he : e = 0
  · simp [hr, he]
  · simp [hr, he]

theorem fileList_byte_open (env : JNIEnv) (fs : FileSystem) (sys : Sys) (js : JString)
    (p : CString) (names : List CString) (e : Nat)
    (hp : env.GetStringUTFChars js = some p) (ho : fs p = some ⟨names, e⟩) :
    filelistbyte.fileList env fs sys (some js) =
      ⟨if e = 0 then toStringArraybyte env (realEntries names) else none,
        (readDirectory env fs sys (some js) []).sys⟩ := by
  have hr := readDirectory_open env fs sys (some js) [] p names e hp ho
  unfold filelistbyte.fileList
  by_cases he : e = 0
  · simp [hr, he]
  · simp [hr, he]

/-! ## The claims on the directory reader -/

/-- C1: when the path is read as text, the directory opens and its stream ends with end of
directory, `readDirectory` returns true and appends exactly the names `readdir` returned, in
the same order, without the names equal to `.` or `..` and with every other name kept; both
entry points encode exactly that list, so no element of either result stands for `.` or `..`. -/
theorem C1_readDirectory_keeps_real_entries (env : JNIEnv) (fs : FileSystem) (sys : Sys)
    (js : JString) (p : CString) (names : List CString) (entries : DirEntries)
    (hp : env.GetStringUTFChars js = some p) (ho : fs p = some ⟨names, 0⟩) :
    (readDirectory env fs sys (some js) entries).ok = true ∧
      (readDirectory env fs sys (some js) entries).entries =
        entries ++ names.filter (fun n => decide (n ≠ dot ∧ n ≠ dotdot)) ∧
      (filelist.fileList env fs sys (some js)).ret =
        (toStringArray env (names.filter (fun n => decide (n ≠ dot ∧ n ≠ dotdot)))).ret ∧
      (filelistbyte.fileList env fs sys (some js)).ret =
        toStringArraybyte env (names.filter (fun n => decide (n ≠ dot ∧ n ≠ dotdot))) ∧
      (∀ arr, (filelistbyte.fileList env fs sys (some js)).ret = some arr →
        some dot ∉ arr ∧ some dotdot ∉ arr) ∧
      (∀ arr i s, (filelist.fileList env fs sys (some js)).ret =
          Completion.returned (some arr) → arr[i]? = some (some s) →
        ∃ n, (names.filter (fun n => decide (n ≠ dot ∧ n ≠ dotdot)))[i]? = some n ∧
          n ≠ dot ∧ n ≠ dotdot ∧ env.NewStringUTF i n = NewStringUTFResult.ok s) := by
  have hr := readDirectory_open env fs sys (some js) entries p names 0 hp ho
  have hs := fileList_string_open env fs sys js p names 0 hp ho
  have hb := fileList_byte_open env fs sys js p names 0 hp ho
  rw [if_pos rfl] at hs
  rw [if_pos rfl] at hb
  rw [show names.filter (fun n => decide (n ≠ dot ∧ n ≠ dotdot)) = realEntries names from rfl]
  refine ⟨by rw [hr]; rfl, by rw [hr], by rw [hs], by rw [hb], ?_, ?_⟩
  · intro arr h
    rw [hb, toStringArraybyte_eq] at h
    by_cases ha : byteArrayAllocated env (realEntries names).length = true
    · rw [if_pos ha] at h
      have h1 : List.map some (realEntries names) = arr := by injection h
      subst h1
      constructor
      · intro hm
        obtain ⟨n, hn, he⟩ := List.mem_map.mp hm
        have : n = dot := by injection he
        exact ((mem_realEntries names n).mp hn).2.1 this
      · intro hm
        obtain ⟨n, hn, he⟩ := List.mem_map.mp hm
        have : n = dotdot := by injection he
        exact ((mem_realEntries names n).mp hn).2.2 this
    · rw [if_neg ha] at h
      cases h
  · intro arr i s h hi
    rw [hs] at h
    obtain ⟨_, _, hl, hc⟩ := toStringArray_nonnull env (realEntries names) arr h
    have hlt : i < (realEntries names).length := by
      have := (List.getElem?_eq_some.mp hi).1
      omega
    have h1 := hc i hlt
    rw [hi] at h1
    have h2 : converted env (realEntries names) i = some s := by
      injection h1 with h1
      exact h1.symm
    rw [converted_eq_some, vectorGetter_eq _ _ hlt] at h2
    have hm : (realEntries names)[i] ∈ realEntries names := List.getElem_mem hlt
    have h3 := (mem_realEntries names _).mp hm
    exact ⟨(realEntries names)[i], List.getElem?_eq_getElem hlt, h3.2.1, h3.2.2, h2⟩

/-- C2: when `readdir` reports an error (`NULL` with a non-zero `errno`) after any number of
entries were read, `readDirectory` returns false and both entry points return `NULL`; the
string encoder is not even started, so no array is built from the entries read so far. -/
theorem C2_read_error_returns_null (env : JNIEnv) (fs : FileSystem) (sys : Sys) (js : JString)
    (p : CString) (names : List CString) (e : Nat)
    (hp : env.GetStringUTFChars js = some p) (ho : fs p = some ⟨names, e⟩) (he : e ≠ 0) :
    (readDirectory env fs sys (some js) []).ok = false ∧
      (filelist.fileList env fs sys (some js)).ret = Completion.returned none ∧
      (filelist.fileList env fs sys (some js)).jni = [] ∧
      (filelistbyte.fileList env fs sys (some js)).ret = none := by
  have hr := readDirectory_open env fs sys (some js) [] p names e hp ho
  have hs := fileList_string_open env fs sys js p names e hp ho
  have hb := fileList_byte_open env fs sys js p names e hp ho
  rw [if_neg he] at hs
  rw [if_neg he] at hb
  refine ⟨by rw [hr]; simp [he], by rw [hs], by rw [hs], by rw [hb]⟩

/-- C3: when the path is `NULL`, or `GetStringUTFChars` yields `NULL`, or `opendir` fails,
`readDirectory` returns false, leaves `entries` as it was and makes no `readdir` call, and both
entry points return `NULL`. -/
theorem C3_unusable_path_returns_null (env : JNIEnv) (fs : FileSystem) (sys : Sys)
    (javaPath : Option JString) (entries : DirEntries)
    (h : javaPath = none ∨ (∃ js, javaPath = some js ∧ env.GetStringUTFChars js = none) ∨
      (∃ js p, javaPath = some js ∧ env.GetStringUTFChars js = some p ∧ fs p = none)) :
    (readDirectory env fs sys javaPath entries).ok = false ∧
      (readDirectory env fs sys javaPath entries).entries = entries ∧
      (∀ d, Syscall.readdir d ∈ (readDirectory env fs sys javaPath entries).sys.calls →
        Syscall.readdir d ∈ sys.calls) ∧
      (filelist.fileList env fs sys javaPath).ret = Completion.returned none ∧
      (filelistbyte.fileList env fs sys javaPath).ret = none := by
  have key : (∀ es, readDirectory env fs sys javaPath es = ⟨false, es, sys⟩) ∨
      (∃ p, ∀ es, readDirectory env fs sys javaPath es =
        ⟨false, es, ⟨sys.openDirs, sys.nextDir, sys.errno,
          sys.calls ++ [Syscall.opendir p]⟩⟩) := by
    rcases h with h | ⟨js, h1, h2⟩ | ⟨js, p, h1, h2, h3⟩
    · left; intro es; subst h; exact readDirectory_null env fs sys none es rfl
    · left; intro es; subst h1; exact readDirectory_null env fs sys (some js) es h2
    · right; subst h1
      exact ⟨p, fun es => readDirectory_closed env fs sys (some js) es p h2 h3⟩
  rcases key with hk | ⟨p, hk⟩
  · refine ⟨by rw [hk], by rw [hk], by rw [hk]; exact fun d hd => hd, ?_, ?_⟩
    · simp [filelist.fileList, hk]
    · simp [filelistbyte.fileList, hk]
  · refine ⟨by rw [hk], by rw [hk], ?_, ?_, ?_⟩
    · rw [hk]
      intro d hd
      simpa using hd
    · simp [filelist.fileList, hk]
    · simp [filelistbyte.fileList, hk]

/-- C9: with the open directory handles as explicit state, `readDirectory` calls `opendir` once
when `path.c_str()` is non-null and not at all otherwise, calls `closedir` once when `opendir`
succeeded and not at all otherwise, and leaves the set of open handles as it found it, whatever
the directory stream holds. -/
theorem C9_directory_handle_balanced (env : JNIEnv) (fs : FileSystem) (sys : Sys)
    (javaPath : Option JString) (entries : DirEntries) :
    (match (ScopedUtfChars.new env javaPath).c_str with
      | none =>
        opendirCalls (readDirectory env fs sys javaPath entries).sys.calls =
            opendirCalls sys.calls ∧
          closedirCalls (readDirectory env fs sys javaPath entries).sys.calls =
            closedirCalls sys.calls
      | some p =>
        opendirCalls (readDirectory env fs sys javaPath entries).sys.calls =
            opendirCalls sys.calls + 1 ∧
          closedirCalls (readDirectory env fs sys javaPath entries).sys.calls =
            closedirCalls sys.calls + (if (fs p).isSome then 1 else 0)) ∧
      (readDirectory env fs sys javaPath entries).sys.openDirs = sys.openDirs ∧
      (readDirectory env fs sys javaPath entries).sys.openDirs.length =
        sys.openDirs.length := by
  have hrep : ∀ (n d : Nat), opendirCalls (List.replicate n (Syscall.readdir d)) = 0 ∧
      closedirCalls (List.replicate n (Syscall.readdir d)) = 0 := by
    intro n d
    induction n with
    | zero => exact ⟨rfl, rfl⟩
    | succ n ih =>
      simp only [opendirCalls, closedirCalls] at ih
      simp [opendirCalls, closedirCalls, List.replicate_succ, List.countP_cons, ih.1, ih.2]
  cases hc : (ScopedUtfChars.new env javaPath).c_str with
  | none =>
    rw [readDirectory_null env fs sys javaPath entries hc]
    exact ⟨⟨rfl, rfl⟩, rfl, rfl⟩
  | some p =>
    cases ho : fs p with
    | none =>
      rw [readDirectory_closed env fs sys javaPath entries p hc ho]
      simp [opendirCalls, closedirCalls, List.countP_append, ho]
    | some st =>
      obtain ⟨names, e⟩ := st
      rw [readDirectory_open env fs sys javaPath entries p names e hc ho]
      have h1 := (hrep (names.length + 1) sys.nextDir).1
      have h2 := (hrep (names.length + 1) sys.nextDir).2
      simp only [opendirCalls, closedirCalls] at h1 h2
      simp [opendirCalls, closedirCalls, List.countP_append, h1, h2, ho]

/-! ## The claims on the encoders -/

/-- C4: when the destination array is allocated, `toStringArraybyte` returns an array with one
buffer per entry, and the buffer at position `i` has the length of entry `i` and holds exactly
the bytes of entry `i` (an empty buffer for an empty name). -/
theorem C4_byte_buffers_are_verbatim (env : JNIEnv) (strings : DirEntries)
    (ha : byteArrayAllocated env strings.length = true) :
    ∃ arr, toStringArraybyte env strings = some arr ∧ arr.length = strings.length ∧
      ∀ (i : Nat) (hi : i < strings.length),
        ∃ buf, arr[i]? = some (some buf) ∧ buf.length = strings[i].length ∧
          buf = strings[i] := by
  refine ⟨strings.map some, ?_, by simp, ?_⟩
  · rw [toStringArraybyte_eq, if_pos ha]
  · intro i hi
    exact ⟨strings[i], by simp [List.getElem?_eq_getElem hi], rfl, rfl⟩

/-- C5, as stated, fails: of the three sample entries exactly the middle one fails text
conversion, and `toStringArray` returns an array of length three with `null` in the middle,
not an array of length two. -/
theorem C5_counterexample_length_kept :
    (∀ i, i < sampleEntries.length → (converted sampleEnv sampleEntries i = none ↔ i = 1)) ∧
      (toStringArray sampleEnv sampleEntries).ret =
        Completion.returned (some [some "a", none, some "b"]) ∧
      ¬ ∃ arr, (toStringArray sampleEnv sampleEntries).ret = Completion.returned (some arr) ∧
        arr.length = sampleEntries.length - 1 := by
  have h : (toStringArray sampleEnv sampleEntries).ret =
      Completion.returned (some [some "a", none, some "b"]) := by decide
  refine ⟨by decide, h, ?_⟩
  rintro ⟨arr, h1, h2⟩
  rw [h] at h1
  have : [some "a", none, some "b"] = arr := by injection h1 with h1; injection h1
  subst this
  simp [sampleEntries] at h2

/-- C5, amended: for an entry list of `N` entries in which exactly entry `f` fails text
conversion, when the destination arrays are allocated and no element assignment reports an
exception, `toStringArray` returns an array of length `N` that holds `null` at position `f`
and the conversion of entry `i` at every other position `i`, while `toStringArraybyte` returns
all `N` entries with their bytes unchanged, entry `f` included. -/
theorem C5_failed_conversion_leaves_null (env : JNIEnv) (strings : DirEntries) (f : Nat)
    (hf : f < strings.length) (hfail : converted env strings f = none)
    (hothers : ∀ i, i < strings.length → i ≠ f → converted env strings i ≠ none)
    (hs : stringArrayAllocated env strings.length = true)
    (hx : ∀ i, i < strings.length → i ≠ f → env.ExceptionCheck i = false)
    (hb : byteArrayAllocated env strings.length = true) :
    ∃ arr barr, (toStringArray env strings).ret = Completion.returned (some arr) ∧
      arr.length = strings.length ∧ arr[f]? = some none ∧
      (∀ i, i < strings.length → i ≠ f →
        ∃ s, env.NewStringUTF i (VectorGetter strings i) = NewStringUTFResult.ok s ∧
          arr[i]? = some (some s)) ∧
      toStringArraybyte env strings = some barr ∧ barr.length = strings.length ∧
      ∀ (i : Nat) (hi : i < strings.length), barr[i]? = some (some strings[i]) := by
  have hx1 : ∀ i, i < strings.length → converted env strings i ≠ none →
      env.ExceptionCheck i = false := by
    intro i hi hv
    by_cases h : i = f
    · subst h; exact absurd hfail hv
    · exact hx i hi h
  obtain ⟨arr, h1, h2, h3⟩ := toStringArray_succeeds env strings hs hx1
  refine ⟨arr, strings.map some, h1, h2, by rw [h3 f hf, hfail], ?_, ?_, by simp, ?_⟩
  · intro i hi hne
    cases hv : converted env strings i with
    | none => exact absurd hv (hothers i hi hne)
    | some s => exact ⟨s, (converted_eq_some env strings i s).mp hv, by rw [h3 i hi, hv]⟩
  · rw [toStringArraybyte_eq, if_pos hb]
  · intro i hi
    simp [List.getElem?_eq_getElem hi]

/-- C6: for a directory that is read to its end and whose `N` names other than `.` and `..` all
convert to text, with both destination arrays allocated and no element assignment reporting an
exception, both entry points return a non-null array of exactly `N` elements, and element `i`
of the string result is the text conversion of the `i`-th such name. -/
theorem C6_valid_names_give_N_elements (env : JNIEnv) (fs : FileSystem) (sys : Sys)
    (js : JString) (p : CString) (names : List CString)
    (hp : env.GetStringUTFChars js = some p) (ho : fs p = some ⟨names, 0⟩)
    (hconv : ∀ i, i < (realEntries names).length → converted env (realEntries names) i ≠ none)
    (hs : stringArrayAllocated env (realEntries names).length = true)
    (hb : byteArrayAllocated env (realEntries names).length = true)
    (hx : ∀ i, i < (realEntries names).length → env.ExceptionCheck i = false) :
    ∃ arr barr, (filelist.fileList env fs sys (some js)).ret = Completion.returned (some arr) ∧
      arr.length = (realEntries names).length ∧
      (∀ (i : Nat) (hi : i < (realEntries names).length),
        ∃ s, env.NewStringUTF i (realEntries names)[i] = NewStringUTFResult.ok s ∧
          arr[i]? = some (some s)) ∧
      (filelistbyte.fileList env fs sys (some js)).ret = some barr ∧
      barr.length = (realEntries names).length := by
  have hfs := fileList_string_open env fs sys js p names 0 hp ho
  have hfb := fileList_byte_open env fs sys js p names 0 hp ho
  rw [if_pos rfl] at hfs
  rw [if_pos rfl] at hfb
  obtain ⟨arr, h1, h2, h3⟩ := toStringArray_succeeds env (realEntries names) hs
    (fun i hi _ => hx i hi)
  refine ⟨arr, (realEntries names).map some, by rw [hfs]; exact h1, h2, ?_, ?_, by simp⟩
  · intro i hi
    cases hv : converted env (realEntries names) i with
    | none => exact absurd hv (hconv i hi)
    | some s =>
      refine ⟨s, ?_, by rw [h3 i hi, hv]⟩
      rw [← vectorGetter_eq _ _ hi]
      exact (converted_eq_some env _ i s).mp hv
  · rw [hfb]
    show toStringArraybyte env (realEntries names) = _
    rw [toStringArraybyte_eq, if_pos hb]

/-- C7: for a directory that opens and whose enumeration yields only `.` and `..` (or nothing)
before end of directory, both entry points return a non-null array of length zero, provided
the zero-length destination array is allocated. -/
theorem C7_empty_directory_gives_empty_array (env : JNIEnv) (fs : FileSystem) (sys : Sys)
    (js : JString) (p : CString) (names : List CString)
    (hp : env.GetStringUTFChars js = some p) (ho : fs p = some ⟨names, 0⟩)
    (hn : ∀ n ∈ names, n = dot ∨ n = dotdot)
    (hs : stringArrayAllocated env 0 = true) (hb : byteArrayAllocated env 0 = true) :
    (filelist.fileList env fs sys (some js)).ret = Completion.returned (some []) ∧
      (filelistbyte.fileList env fs sys (some js)).ret = some [] := by
  have hfs := fileList_string_open env fs sys js p names 0 hp ho
  have hfb := fileList_byte_open env fs sys js p names 0 hp ho
  rw [if_pos rfl, realEntries_eq_nil names hn] at hfs
  rw [if_pos rfl, realEntries_eq_nil names hn] at hfb
  constructor
  · rw [hfs]
    show (toStringArray env []).ret = _
    rw [toStringArray_allocated env [] hs]
    rfl
  · rw [hfb]
    show toStringArraybyte env [] = _
    rw [toStringArraybyte_eq]
    exact if_pos hb

/-- C8: when `toStringArray` has assigned element `i` into the destination and the runtime
reports an exception at the check that follows, `toStringArray` returns `NULL` and no JNI call
of the loop (conversion, assignment or check) is made for an entry after `i`; the conversion of
entry `i` had succeeded. -/
theorem C8_assignment_exception_aborts (env : JNIEnv) (strings : DirEntries) (i : Nat)
    (hset : JniCall.SetObjectArrayElement i ∈ (toStringArray env strings).jni)
    (he : env.ExceptionCheck i = true) :
    (toStringArray env strings).ret = Completion.returned none ∧
      (∀ c ∈ (toStringArray env strings).jni, c.index ≤ i) ∧
      i < strings.length ∧
      ∃ s, env.NewStringUTF i (VectorGetter strings i) = NewStringUTFResult.ok s := by
  have ha : stringArrayAllocated env strings.length = true := by
    by_contra hn
    have hn1 : stringArrayAllocated env strings.length = false := by simpa using hn
    rw [(toStringArray_not_allocated env strings hn1).1] at hset
    cases hset
  rw [toStringArray_allocated env strings ha] at hset ⊢
  rcases toStringArrayLoop_calls env strings strings.length strings.length _ []
    (Nat.le_refl _) _ hset with h | ⟨_, h2, h3⟩
  · cases h
  · have hi : i < strings.length := h2
    have hv : converted env strings i ≠ none := h3 rfl
    obtain ⟨h4, h5⟩ := toStringArrayLoop_raises env strings strings.length i hi hv he
      strings.length (List.replicate strings.length none) [] (Nat.le_refl _) (by omega)
    refine ⟨h4, ?_, hi, ?_⟩
    · intro c hc
      rcases h5 c hc with h | h
      · cases h
      · exact h
    · cases hc : converted env strings i with
      | none => exact absurd hc hv
      | some s => exact ⟨s, (converted_eq_some env strings i s).mp hc⟩

/-- C10: whenever `toStringArray` returns a non-null array for `N` entries, the array has
length `N` however many conversions failed: an index whose conversion threw or returned `NULL`
holds the initial `null`, and an index whose conversion succeeded holds the conversion of the
entry at that same index, so a skipped entry does not shift later entries. -/
theorem C10_nonnull_result_keeps_positions (env : JNIEnv) (strings : DirEntries)
    (arr : List (Option JString))
    (h : (toStringArray env strings).ret = Completion.returned (some arr)) :
    arr.length = strings.length ∧
      ∀ (i : Nat) (hi : i < strings.length),
        (env.NewStringUTF i strings[i] = NewStringUTFResult.threw → arr[i]? = some none) ∧
        (env.NewStringUTF i strings[i] = NewStringUTFResult.null → arr[i]? = some none) ∧
        (∀ s, env.NewStringUTF i strings[i] = NewStringUTFResult.ok s →
          arr[i]? = some (some s)) := by
  obtain ⟨_, _, h2, h3⟩ := toStringArray_nonnull env strings arr h
  refine ⟨h2, ?_⟩
  intro i hi
  rw [← vectorGetter_eq _ _ hi, h3 i hi]
  refine ⟨?_, ?_, ?_⟩
  · intro hc
    rw [(converted_eq_none env strings i).mpr (Or.inl hc)]
  · intro hc
    rw [(converted_eq_none env strings i).mpr (Or.inr hc)]
  · intro s hc
    rw [(converted_eq_some env strings i s).mpr hc]

/-! ## The claims at the sample inputs -/

/-- The directory `/d` of the sample file system: `.` and `..` are dropped, the name with the
byte `0xFF`, `...` and `.b` are kept, in order. -/
theorem C1_witness_sample_directory :
    sampleEnv.GetStringUTFChars "/d" = some [47, 100] ∧
      sampleFs [47, 100] =
        some ⟨[[46], [46, 46], [97], [255], [46, 46, 46], [46, 98]], 0⟩ ∧
      (readDirectory sampleEnv sampleFs sampleSys (some "/d") []).ok = true ∧
      (readDirectory sampleEnv sampleFs sampleSys (some "/d") []).entries =
        [[97], [255], [46, 46, 46], [46, 98]] := by
  have h := C1_readDirectory_keeps_real_entries sampleEnv sampleFs sampleSys "/d" [47, 100]
    [[46], [46, 46], [97], [255], [46, 46, 46], [46, 98]] [] (by decide) (by decide)
  exact ⟨by decide, by decide, h.1, h.2.1.trans (by decide)⟩

/-- The directory `/e` of the sample file system, whose third `readdir` fails after the entry
`a` was collected. -/
theorem C2_witness_failing_directory :
    sampleEnv.GetStringUTFChars "/e" = some [47, 101] ∧
      sampleFs [47, 101] = some ⟨[[46], [97]], 5⟩ ∧ (5 : Nat) ≠ 0 ∧
      (filelist.fileList sampleEnv sampleFs sampleSys (some "/e")).ret =
        Completion.returned none ∧
      (filelistbyte.fileList sampleEnv sampleFs sampleSys (some "/e")).ret = none := by
  have h := C2_read_error_returns_null sampleEnv sampleFs sampleSys "/e" [47, 101]
    [[46], [97]] 5 (by decide) (by decide) (by decide)
  exact ⟨by decide, by decide, by decide, h.2.1, h.2.2.2⟩

/-- The path `/x`, which the sample file system does not hold. -/
theorem C3_witness_missing_directory :
    sampleEnv.GetStringUTFChars "/x" = some [47, 120] ∧ sampleFs [47, 120] = none ∧
      (readDirectory sampleEnv sampleFs sampleSys (some "/x") []).ok = false ∧
      (filelist.fileList sampleEnv sampleFs sampleSys (some "/x")).ret =
        Completion.returned none ∧
      (filelistbyte.fileList sampleEnv sampleFs sampleSys (some "/x")).ret = none := by
  have h := C3_unusable_path_returns_null sampleEnv sampleFs sampleSys (some "/x") []
    (Or.inr (Or.inr ⟨"/x", [47, 120], rfl, by decide, by decide⟩))
  exact ⟨by decide, by decide, h.1, h.2.2.2.1, h.2.2.2.2⟩

/-- The three sample entries and an empty name are copied byte for byte. -/
theorem C4_witness_sample_entries :
    byteArrayAllocated sampleEnv ([] :: sampleEntries).length = true ∧
      ∃ arr, toStringArraybyte sampleEnv ([] :: sampleEntries) = some arr ∧
        arr.length = 4 ∧ arr[0]? = some (some []) ∧ arr[2]? = some (some [255]) := by
  obtain ⟨arr, h1, h2, h3⟩ := C4_byte_buffers_are_verbatim sampleEnv ([] :: sampleEntries)
    (by decide)
  refine ⟨by decide, arr, h1, h2, ?_, ?_⟩
  · obtain ⟨buf, h4, _, h5⟩ := h3 0 (by decide)
    rw [h4, h5]; rfl
  · obtain ⟨buf, h4, _, h5⟩ := h3 2 (by decide)
    rw [h4, h5]; rfl

/-- The three sample entries: the middle one fails conversion and leaves `null` in place. -/
theorem C5_witness_sample_entries :
    converted sampleEnv sampleEntries 1 = none ∧
      stringArrayAllocated sampleEnv sampleEntries.length = true ∧
      byteArrayAllocated sampleEnv sampleEntries.length = true ∧
      ∃ arr barr, (toStringArray sampleEnv sampleEntries).ret =
          Completion.returned (some arr) ∧
        arr.length = 3 ∧ arr[1]? = some none ∧
        toStringArraybyte sampleEnv sampleEntries = some barr ∧ barr.length = 3 := by
  obtain ⟨arr, barr, h1, h2, h3, _, h5, h6, _⟩ :=
    C5_failed_conversion_leaves_null sampleEnv sampleEntries 1 (by decide) (by decide)
      (by decide) (by decide) (by decide) (by decide)
  exact ⟨by decide, by decide, by decide, arr, barr, h1, h2, h3, h5, h6⟩

/-- The directory `/v` of the sample file system: two real entries, both valid text. -/
theorem C6_witness_valid_directory :
    sampleEnv.GetStringUTFChars "/v" = some [47, 118] ∧
      sampleFs [47, 118] = some ⟨[[46], [97], [46, 46], [98]], 0⟩ ∧
      ∃ arr barr, (filelist.fileList sampleEnv sampleFs sampleSys (some "/v")).ret =
          Completion.returned (some arr) ∧ arr.length = 2 ∧
        (filelistbyte.fileList sampleEnv sampleFs sampleSys (some "/v")).ret = some barr ∧
        barr.length = 2 := by
  obtain ⟨arr, barr, h1, h2, _, h4, h5⟩ :=
    C6_valid_names_give_N_elements sampleEnv sampleFs sampleSys "/v" [47, 118]
      [[46], [97], [46, 46], [98]] (by decide) (by decide) (by decide) (by decide)
      (by decide) (by decide)
  exact ⟨by decide, by decide, arr, barr, h1, h2, h4, h5⟩

/-- The directory `/o` of the sample file system, which holds only `.` and `..`. -/
theorem C7_witness_empty_directory :
    sampleEnv.GetStringUTFChars "/o" = some [47, 111] ∧
      sampleFs [47, 111] = some ⟨[[46], [46, 46]], 0⟩ ∧
      (filelist.fileList sampleEnv sampleFs sampleSys (some "/o")).ret =
        Completion.returned (some []) ∧
      (filelistbyte.fileList sampleEnv sampleFs sampleSys (some "/o")).ret = some [] := by
  have h := C7_empty_directory_gives_empty_array sampleEnv sampleFs sampleSys "/o" [47, 111]
    [[46], [46, 46]] (by decide) (by decide) (by decide) (by decide) (by decide)
  exact ⟨by decide, by decide, h.1, h.2⟩

/-- Three entries with an exception reported after the assignment of the second: the call
returns `NULL` and the third entry is never touched. -/
theorem C8_witness_exception_at_one :
    JniCall.SetObjectArrayElement 1 ∈ (toStringArray raisingEnv [[97], [98], [99]]).jni ∧
      raisingEnv.ExceptionCheck 1 = true ∧
      (toStringArray raisingEnv [[97], [98], [99]]).ret = Completion.returned none ∧
      ∀ c ∈ (toStringArray raisingEnv [[97], [98], [99]]).jni, c.index ≤ 1 := by
  have h := C8_assignment_exception_aborts raisingEnv [[97], [98], [99]] 1 (by decide)
    (by decide)
  exact ⟨by decide, by decide, h.1, h.2.1⟩

/-- The three sample entries: the result keeps length three and the positions of `a` and `b`. -/
theorem C10_witness_sample_entries :
    (toStringArray sampleEnv sampleEntries).ret =
        Completion.returned (some [some "a", none, some "b"]) ∧
      ([some "a", none, some "b"] : List (Option JString)).length = sampleEntries.length := by
  have h := C10_nonnull_result_keeps_positions sampleEnv sampleEntries
    [some "a", none, some "b"] (by decide)
  exact ⟨by decide, h.1⟩

end FileList
